import Mathlib

/-!
Verification of the `polite` process launcher (src/handler.rs).

Strings from the Rust source are modelled as `List Char`; Rust's `i8` / `i32`
integer parsing is modelled over `Int` with explicit range bounds; `HashMap`
is modelled as an insertion list whose lookup returns the most recent binding.
-/

deriving instance DecidableEq for Except

namespace Polite

/-- Rust `str::trim`: drop whitespace from both ends of the line. -/
def trimChars (l : List Char) : List Char :=
  ((l.dropWhile Char.isWhitespace).reverse.dropWhile Char.isWhitespace).reverse

/-- Rust `str::starts_with('#')`. -/
def startsWithHash : List Char → Bool
  | [] => false
  | c :: _ => c = '#'

/-- Rust `str::split(';')`: every `;` separates fields, empty fields included. -/
def splitSemi : List Char → List (List Char)
  | [] => [[]]
  | c :: cs =>
    if c = ';' then [] :: splitSemi cs
    else
      match splitSemi cs with
      | f :: rest => (c :: f) :: rest
      | [] => [[c]]

/-- Numeric value of a decimal digit string (most significant digit first). -/
def digitsToNat (cs : List Char) : Nat :=
  cs.foldl (fun a c => a * 10 + (c.toNat - 48)) 0

/-- Sign-less part of Rust integer parsing: nonempty all-digit string whose
value lies within `[lo, hi]` after applying `sign`. -/
def parseDigitsInt (lo hi sign : Int) (ds : List Char) : Option Int :=
  if ds.isEmpty then none
  else if ds.all Char.isDigit then
    if lo ≤ sign * (digitsToNat ds : Int) ∧ sign * (digitsToNat ds : Int) ≤ hi then
      some (sign * (digitsToNat ds : Int))
    else none
  else none

/-- Rust `str::parse::<iN>()` with the range of the target type `[lo, hi]`:
an optional `+`/`-` sign followed by one or more ASCII digits, the value
required to fit in the range. -/
def parseIntRust (lo hi : Int) (cs : List Char) : Option Int :=
  match cs with
  | [] => none
  | c :: rest =>
    if c = '+' then parseDigitsInt lo hi 1 rest
    else if c = '-' then parseDigitsInt lo hi (-1) rest
    else parseDigitsInt lo hi 1 (c :: rest)

/-- The settings pair from handler.rs. -/
structure PoliteConfig where
  niceness : Int
  oom_score_adj : Int
deriving Repr, DecidableEq

/-- Translation of `parse_config_line` from handler.rs: split on `;`, require at least three
fields, parse alias as `i8`, reject alias 0, parse niceness / oom as `i32`,
range-check them. -/
def parse_config_line (line : List Char) : Except String (Int × PoliteConfig) :=
  match splitSemi line with
  | p0 :: p1 :: p2 :: _ =>
    match parseIntRust (-128) 127 p0 with
    | none => .error "invalid alias integer"
    | some aliasV =>
      if aliasV = 0 then .error "Alias 0 reserved"
      else
        match parseIntRust (-2147483648) 2147483647 p1 with
        | none => .error "invalid niceness integer"
        | some niceness =>
          match parseIntRust (-2147483648) 2147483647 p2 with
          | none => .error "invalid oom integer"
          | some oom_score_adj =>
            if niceness < -20 ∨ niceness > 19 ∨ oom_score_adj < -1000 ∨ oom_score_adj > 1000 then
              .error "Value out of range"
            else .ok (aliasV, ⟨niceness, oom_score_adj⟩)
  | _ => .error "Invalid config"

example : parse_config_line "0;5;100".data = .error "Alias 0 reserved" := by decide
example : parse_config_line "1;5".data = .error "Invalid config" := by decide
example : parse_config_line " 1;5;100".data = .error "invalid alias integer" := by decide

/-- The `HashMap<i8, PoliteConfig>` of the source, modelled as the list of insertions, most
recent first; `mapGet` finds the most recent binding, matching
`HashMap::insert` overwrite semantics. -/
abbrev ConfigMap := List (Int × PoliteConfig)

def mapInsert (m : ConfigMap) (k : Int) (v : PoliteConfig) : ConfigMap := (k, v) :: m

def mapGet (m : ConfigMap) (k : Int) : Option PoliteConfig :=
  (m.find? (fun p => p.1 = k)).map (·.2)

/-- The literal `-START-` marker of the local file format. -/
def startMarker : List Char := "-START-".data

/-- The literal `-END-` marker of the local file format. -/
def endMarker : List Char := "-END-".data

/-- The line loop of `load_local_config` in handler.rs: each line is trimmed;
`-START-` opens the active section, the first `-END-` stops scanning at once;
inside the section, non-blank non-`#` lines must parse or the whole load
fails. -/
def loadLines (inSection : Bool) (configs : ConfigMap) :
    List (List Char) → Except String ConfigMap
  | [] => .ok configs
  | l :: ls =>
    let line := trimChars l
    if line = startMarker then loadLines true configs ls
    else if line = endMarker then .ok configs
    else if inSection && !line.isEmpty && !startsWithHash line then
      match parse_config_line line with
      | .ok (a, c) => loadLines inSection (mapInsert configs a c) ls
      | .error e => .error e
    else loadLines inSection configs ls

/-- Translation of `load_local_config` from handler.rs. The file system read is modelled by
the argument: `.error e` is an `File::open`/read failure, `.ok lines` the
lines of the file. -/
def load_local_config (file : Except String (List (List Char))) :
    Except String ConfigMap :=
  match file with
  | .error e => .error e
  | .ok lines => loadLines false [] lines

/-- The line filter of `fetch_online_config` in handler.rs:
`!l.trim().is_empty() && !l.starts_with('#')` (note: `starts_with` is checked
on the UNtrimmed line, unlike local loading). -/
def fetchCandidate (l : List Char) : Bool :=
  !(trimChars l).isEmpty && !startsWithHash l

/-- The loop body of `fetch_online_config`: insert the entry if the line
parses, ignore the line otherwise. -/
def remoteStep (m : ConfigMap) (l : List Char) : ConfigMap :=
  match parse_config_line l with
  | .ok (a, c) => mapInsert m a c
  | .error _ => m

/-- Body of `fetch_online_config` once the document text has been obtained:
parse failures are skipped per line; an empty resulting map is an error. -/
def fetch_doc (docLines : List (List Char)) : Except String ConfigMap :=
  let configs := (docLines.filter fetchCandidate).foldl remoteStep []
  if configs.isEmpty then .error "No valid online configs" else .ok configs

/-- Translation of `fetch_online_config` from handler.rs. The HTTP transport is modelled by
the argument: `.error e` is a `reqwest::get` failure (wrapped as
`Fetch error: {e}` by the source), `.ok lines` the lines of the document. -/
def fetch_online_config (transport : Except String (List (List Char))) :
    Except String ConfigMap :=
  match transport with
  | .error e => .error ("Fetch error: " ++ e)
  | .ok docLines => fetch_doc docLines

/-- Whether `pat` is a leading segment of the second list. -/
def sameStart : List Char → List Char → Bool
  | [], _ => true
  | _ :: _, [] => false
  | p :: ps, c :: cs => p = c && sameStart ps cs

/-- Rust `str::contains(pat)`: `pat` occurs contiguously in the list. -/
def hasSub (pat : List Char) : List Char → Bool
  | [] => pat.isEmpty
  | c :: cs => sameStart pat (c :: cs) || hasSub pat cs

/-- Translation of `mock_llm_decision` from handler.rs: niceness 5 when the program path
contains `boinc`, else 0; oom_score_adj always 100. -/
def mock_llm_decision (program : List Char) : PoliteConfig :=
  { niceness := if hasSub "boinc".data program then 5 else 0
    oom_score_adj := 100 }

/-- Environment of one `run` invocation: what the OS/network would answer.
`localFile` models opening+reading `polite.conf`; `remoteDoc` models the
HTTP transport; `programHasPath` models `Path::new(program).exists()`;
`applyResult` models the two `apply_runtime_settings` syscalls (`some msg` =
failure); `childExitCode` is the status the child eventually exits with. -/
structure RunEnv where
  now : Nat
  localFile : Except String (List (List Char))
  remoteDoc : Except String (List (List Char))
  programHasPath : Bool
  applyResult : Option String
  childExitCode : Nat
deriving Repr, DecidableEq

/-- Observable outcome of one CLI invocation: the process exit code, which
messages were printed, which collaborators were invoked, and whether a child
was forked / waited for. -/
structure Outcome where
  err : Option String
  exitCode : Nat
  usagePrinted : Bool
  unknownCmdMsg : Bool
  fetchAttempted : Bool
  oracleUsed : Bool
  resolvedConfig : Option PoliteConfig
  childSpawned : Bool
  waitedForChild : Bool
deriving Repr, DecidableEq

def baseOutcome : Outcome :=
  { err := none, exitCode := 0, usagePrinted := false, unknownCmdMsg := false,
    fetchAttempted := false, oracleUsed := false, resolvedConfig := none,
    childSpawned := false, waitedForChild := false }

/-- The config-resolution step of the `run` branch of `main` in handler.rs
(the `let config = if alias == 0 ... else ...` expression): alias 0 →
time-gated remote fetch with oracle fallback; alias ≠ 0 → local store lookup,
absence fatal. Besides the resolution result it records whether the remote
fetcher was attempted and whether the oracle (`mock_llm_decision`) was used. -/
def resolveConfig (aliasV : Int) (program : List Char) (env : RunEnv) :
    Except String PoliteConfig × Bool × Bool :=
  if aliasV = 0 then
    let last_fetch : Nat := 0
    if env.now - last_fetch > 3600 then
      match fetch_online_config env.remoteDoc with
      | .ok online =>
        match mapGet online 65 with
        | some c => (.ok c, true, false)
        | none => (.ok (mock_llm_decision program), true, true)
      | .error _ => (.ok (mock_llm_decision program), true, true)
    else (.ok (mock_llm_decision program), false, true)
  else
    match load_local_config env.localFile with
    | .error e => (.error e, false, false)
    | .ok m =>
      match mapGet m aliasV with
      | some c => (.ok c, false, false)
      | none => (.error ("Alias " ++ toString aliasV ++ " not found"), false, false)

/-- The `run` branch of `main` in handler.rs, after the alias argument has
been parsed: resolve the config, check the program path, fork, apply settings
from the parent, wait for the child. `main` returning `Err` makes the Rust
process exit with code 1; returning `Ok(())` exits with code 0 — the
waited-for child status is discarded by the source. -/
def runBranch (aliasV : Int) (program : List Char) (env : RunEnv) : Outcome :=
  match resolveConfig aliasV program env with
  | (.error e, fa, ou) =>
    { baseOutcome with err := some e, exitCode := 1, fetchAttempted := fa, oracleUsed := ou }
  | (.ok config, fa, ou) =>
    if !env.programHasPath then
      { baseOutcome with
        err := some ("Program " ++ String.mk program ++ " not found"), exitCode := 1,
        fetchAttempted := fa, oracleUsed := ou, resolvedConfig := some config }
    else
      match env.applyResult with
      | some msg =>
        { baseOutcome with
          err := some msg, exitCode := 1,
          fetchAttempted := fa, oracleUsed := ou, resolvedConfig := some config,
          childSpawned := true }
      | none =>
        { baseOutcome with
          err := none, exitCode := 0,
          fetchAttempted := fa, oracleUsed := ou, resolvedConfig := some config,
          childSpawned := true, waitedForChild := true }

/-- Translation of `main` from handler.rs: dispatch on `args[1]`. Fewer than two arguments
prints usage and exits 1; `run`/`status`/`list` behave per their branches; an
unknown command prints `Unknown command: ...` to stderr and `main` then
returns `Ok(())`, i.e. exit code 0. `statusReport` models
`get_applied_settings` for the given pid. -/
def polite_main (args : List (List Char)) (env : RunEnv)
    (statusReport : Except String (List Char)) : Outcome :=
  if args.length < 2 then
    { baseOutcome with usagePrinted := true, exitCode := 1 }
  else
    match args with
    | _ :: cmd :: rest =>
      if cmd = "run".data then
        if args.length ≠ 4 then { baseOutcome with usagePrinted := true, exitCode := 1 }
        else
          match rest with
          | aliasStr :: program :: _ =>
            match parseIntRust (-128) 127 aliasStr with
            | none => { baseOutcome with err := some "invalid digit found in string", exitCode := 1 }
            | some aliasV => runBranch aliasV program env
          | _ => { baseOutcome with usagePrinted := true, exitCode := 1 }
      else if cmd = "status".data then
        if args.length ≠ 3 then { baseOutcome with usagePrinted := true, exitCode := 1 }
        else
          match rest with
          | pidStr :: _ =>
            match parseIntRust (-2147483648) 2147483647 pidStr with
            | none => { baseOutcome with err := some "invalid digit found in string", exitCode := 1 }
            | some _ =>
              match statusReport with
              | .error e => { baseOutcome with err := some e, exitCode := 1 }
              | .ok _ => baseOutcome
          | _ => { baseOutcome with usagePrinted := true, exitCode := 1 }
      else if cmd = "list".data then
        match load_local_config env.localFile with
        | .error e => { baseOutcome with err := some e, exitCode := 1 }
        | .ok _ => baseOutcome
      else { baseOutcome with unknownCmdMsg := true, exitCode := 0 }
    | _ => { baseOutcome with usagePrinted := true, exitCode := 1 }

/-- Decimal digit as a character (`n` is a value `0..9`). -/
def digitChar (n : Nat) : Char :=
  match n with
  | 0 => '0' | 1 => '1' | 2 => '2' | 3 => '3' | 4 => '4'
  | 5 => '5' | 6 => '6' | 7 => '7' | 8 => '8' | 9 => '9'
  | _ => '*'

/-- Decimal rendering with explicit fuel (`fuel > n` suffices), so that the
kernel can evaluate it on concrete inputs. -/
def natToDigitsAux : Nat → Nat → List Char
  | 0, _ => []
  | fuel + 1, n =>
    if n < 10 then [digitChar n]
    else natToDigitsAux fuel (n / 10) ++ [digitChar (n % 10)]

/-- Decimal rendering of a natural number, most significant digit first. -/
def natToDigits (n : Nat) : List Char := natToDigitsAux (n + 1) n

/-- Decimal rendering of an integer, as Rust's `Display` produces it. -/
def renderInt (i : Int) : List Char :=
  if i < 0 then '-' :: natToDigits i.natAbs else natToDigits i.natAbs

/-- The entry a line contributes inside the active section of the local file:
`none` when the trimmed line is blank or a comment, otherwise the parse
result if it succeeds. -/
def entryOfLocal (l : List Char) : Option (Int × PoliteConfig) :=
  let t := trimChars l
  if t.isEmpty || startsWithHash t then none else (parse_config_line t).toOption

/-- A line that local loading consumes without failing: not a marker, and
either skippable (blank/comment) or successfully parseable. -/
def goodLine (l : List Char) : Bool :=
  let t := trimChars l
  t ≠ startMarker && t ≠ endMarker &&
    (t.isEmpty || startsWithHash t || (parse_config_line t).toOption.isSome)

/-- Last-wins lookup over a list of (alias, config) entries in file order. -/
def lookupLast : List (Int × PoliteConfig) → Int → Option PoliteConfig
  | [], _ => none
  | p :: rest, a =>
    match lookupLast rest a with
    | some c => some c
    | none => if p.1 = a then some p.2 else none

/-- The well-formed entries of a remote document, in document order. -/
def parsedEntries (docLines : List (List Char)) : List (Int × PoliteConfig) :=
  (docLines.filter fetchCandidate).filterMap (fun l => (parse_config_line l).toOption)

/-- Modelled from the spec: §4.4 says remote lines are "filtered for
blank/comment exactly as in §4.3", i.e. the blank/comment test is applied to
the TRIMMED line as local loading does. This variant of `fetch_doc` exists
only to be compared against the source's `fetch_doc`, whose `starts_with('#')`
test runs on the untrimmed line. -/
def fetch_doc_specFilter (docLines : List (List Char)) : Except String ConfigMap :=
  let configs := (docLines.filter
    (fun l => !(trimChars l).isEmpty && !startsWithHash (trimChars l))).foldl remoteStep []
  if configs.isEmpty then .error "No valid online configs" else .ok configs

/-- A concrete environment for the `run 1 ./prog` scenario: the local file
holds alias 1 with niceness 5 / oom 100, the program exists, both settings
apply cleanly, and the child exits with status 3. -/
def envChild3 : RunEnv :=
  { now := 4000,
    localFile := .ok ["-START-".data, "1;5;100".data, "-END-".data],
    remoteDoc := .error "offline",
    programHasPath := true,
    applyResult := none,
    childExitCode := 3 }

/-- One step of the in-section accumulation: what a good (non-marker) line
contributes to the map being built. -/
def stepLine (acc : ConfigMap) (l : List Char) : ConfigMap :=
  match entryOfLocal l with
  | some (a, c) => mapInsert acc a c
  | none => acc

/-- Last-wins lookup over section lines in file order, keyed by alias. -/
def lookupLastLine : List (List Char) → Int → Option PoliteConfig
  | [], _ => none
  | l :: rest, a =>
    match lookupLastLine rest a with
    | some c => some c
    | none =>
      match entryOfLocal l with
      | some (a2, c) => if a2 = a then some c else none
      | none => none

/-! ## Theorems -/


/-- C1, counterexample: in the `run 1 ./prog` scenario with a child exiting
with status 3, the launch resolves, starts the child and waits for it, yet
the command's own exit code is 0, not the child's 3. -/
theorem c1_counterexample :
    (runBranch 1 "./prog".data envChild3).err = none ∧
    (runBranch 1 "./prog".data envChild3).waitedForChild = true ∧
    envChild3.childExitCode = 3 ∧
    (runBranch 1 "./prog".data envChild3).exitCode ≠ envChild3.childExitCode := by
  decide

/-- C1, amended: whenever the `run` branch completes without error (config
resolved, program found, child started, settings applied), the parent has
waited for the child to exit and the command terminates with exit code 0,
regardless of the child's own exit code. -/
theorem c1_run_waits_then_exits_zero (aliasV : Int) (program : List Char) (env : RunEnv)
    (h : (runBranch aliasV program env).err = none) :
    (runBranch aliasV program env).waitedForChild = true ∧
    (runBranch aliasV program env).exitCode = 0 := by
  revert h
  unfold runBranch
  rcases hres : resolveConfig aliasV program env with ⟨e | c, fa, ou⟩
  · simp [baseOutcome]
  · rcases hap : env.applyResult with _ | msg <;>
      by_cases hp : env.programHasPath <;>
        simp [hp, hap, baseOutcome]

theorem runBranch_resolve_ok (aliasV : Int) (program : List Char) (env : RunEnv)
    (c : PoliteConfig) (fa ou : Bool)
    (h : resolveConfig aliasV program env = (.ok c, fa, ou)) :
    (runBranch aliasV program env).fetchAttempted = fa ∧
    (runBranch aliasV program env).oracleUsed = ou ∧
    (runBranch aliasV program env).resolvedConfig = some c := by
  unfold runBranch
  rw [h]
  rcases hap : env.applyResult with _ | msg <;>
    by_cases hp : env.programHasPath <;>
      simp [hp, hap, baseOutcome]

theorem runBranch_resolve_err (aliasV : Int) (program : List Char) (env : RunEnv)
    (e : String) (fa ou : Bool)
    (h : resolveConfig aliasV program env = (.error e, fa, ou)) :
    runBranch aliasV program env =
      { baseOutcome with
        err := some e, exitCode := 1,
        fetchAttempted := fa, oracleUsed := ou } := by
  unfold runBranch
  rw [h]

theorem resolveConfig_local_found (aliasV : Int) (program : List Char) (env : RunEnv)
    (m : ConfigMap) (c : PoliteConfig) (h : aliasV ≠ 0)
    (hm : load_local_config env.localFile = .ok m) (hc : mapGet m aliasV = some c) :
    resolveConfig aliasV program env = (.ok c, false, false) := by
  unfold resolveConfig
  rw [if_neg h, hm]
  simp [hc]

theorem resolveConfig_local_absent (aliasV : Int) (program : List Char) (env : RunEnv)
    (m : ConfigMap) (h : aliasV ≠ 0)
    (hm : load_local_config env.localFile = .ok m) (hc : mapGet m aliasV = none) :
    resolveConfig aliasV program env =
      (.error ("Alias " ++ toString aliasV ++ " not found"), false, false) := by
  unfold resolveConfig
  rw [if_neg h, hm]
  simp [hc]

theorem resolveConfig_local_loaderr (aliasV : Int) (program : List Char) (env : RunEnv)
    (e : String) (h : aliasV ≠ 0) (hm : load_local_config env.localFile = .error e) :
    resolveConfig aliasV program env = (.error e, false, false) := by
  unfold resolveConfig
  rw [if_neg h, hm]

theorem resolveConfig_fetch_hit (program : List Char) (env : RunEnv)
    (m : ConfigMap) (c : PoliteConfig) (h : 3600 < env.now)
    (hf : fetch_online_config env.remoteDoc = .ok m) (h65 : mapGet m 65 = some c) :
    resolveConfig 0 program env = (.ok c, true, false) := by
  unfold resolveConfig
  rw [if_pos rfl, if_pos (by omega : env.now - 0 > 3600), hf]
  simp [h65]

theorem resolveConfig_fetch_miss (program : List Char) (env : RunEnv)
    (m : ConfigMap) (h : 3600 < env.now)
    (hf : fetch_online_config env.remoteDoc = .ok m) (h65 : mapGet m 65 = none) :
    resolveConfig 0 program env = (.ok (mock_llm_decision program), true, true) := by
  unfold resolveConfig
  rw [if_pos rfl, if_pos (by omega : env.now - 0 > 3600), hf]
  simp [h65]

theorem resolveConfig_fetch_err (program : List Char) (env : RunEnv)
    (e : String) (h : 3600 < env.now)
    (hf : fetch_online_config env.remoteDoc = .error e) :
    resolveConfig 0 program env = (.ok (mock_llm_decision program), true, true) := by
  unfold resolveConfig
  rw [if_pos rfl, if_pos (by omega : env.now - 0 > 3600), hf]

/-- C2: with a nonzero alias, only the local store is consulted — the remote
fetcher and the oracle are never invoked; if the alias is present its config
is the resolved one, and if absent the launch fails with the
"alias not found" error, exit code 1, without creating a child. -/
theorem c2_nonzero_alias_local_only (aliasV : Int) (program : List Char) (env : RunEnv)
    (h : aliasV ≠ 0) :
    (runBranch aliasV program env).fetchAttempted = false ∧
    (runBranch aliasV program env).oracleUsed = false ∧
    (∀ m, load_local_config env.localFile = .ok m →
      (∀ c, mapGet m aliasV = some c →
        (runBranch aliasV program env).resolvedConfig = some c) ∧
      (mapGet m aliasV = none →
        (runBranch aliasV program env).err =
          some ("Alias " ++ toString aliasV ++ " not found") ∧
        (runBranch aliasV program env).exitCode = 1 ∧
        (runBranch aliasV program env).childSpawned = false)) := by
  rcases hload : load_local_config env.localFile with e | m
  · rw [runBranch_resolve_err _ _ _ _ _ _ (resolveConfig_local_loaderr _ _ _ _ h hload)]
    refine ⟨rfl, rfl, ?_⟩
    intro m' hm'
    simp at hm'
  · rcases hget : mapGet m aliasV with _ | c
    · rw [runBranch_resolve_err _ _ _ _ _ _ (resolveConfig_local_absent _ _ _ _ h hload hget)]
      refine ⟨rfl, rfl, ?_⟩
      intro m' hm'
      injection hm' with hmm
      subst hmm
      refine ⟨fun c' hc' => ?_, fun _ => ⟨rfl, rfl, rfl⟩⟩
      rw [hget] at hc'
      simp at hc'
    · obtain ⟨hfa, hou, hrc⟩ :=
        runBranch_resolve_ok _ _ _ _ _ _ (resolveConfig_local_found _ _ _ _ _ h hload hget)
      refine ⟨hfa, hou, ?_⟩
      intro m' hm'
      injection hm' with hmm
      subst hmm
      refine ⟨fun c' hc' => ?_, fun hnone => ?_⟩
      · rw [hget] at hc'
        injection hc' with hcc
        subst hcc
        exact hrc
      · rw [hget] at hnone
        simp at hnone

/-- C3: with alias 0 and the hardcoded "never fetched" timestamp (so that
more than one hour has elapsed for any clock value above 3600 seconds), the
remote fetch is always attempted; on success the fetched mapping's entry for
the well-known alias 65 is used if present, and otherwise — entry absent or
fetch failed — the Fallback Oracle applied to the program path supplies the
config. -/
theorem c3_alias_zero_fetch_then_oracle (program : List Char) (env : RunEnv)
    (h : 3600 < env.now) :
    (runBranch 0 program env).fetchAttempted = true ∧
    (∀ m, fetch_online_config env.remoteDoc = .ok m →
      (∀ c, mapGet m 65 = some c →
        (runBranch 0 program env).oracleUsed = false ∧
        (runBranch 0 program env).resolvedConfig = some c) ∧
      (mapGet m 65 = none →
        (runBranch 0 program env).oracleUsed = true ∧
        (runBranch 0 program env).resolvedConfig = some (mock_llm_decision program))) ∧
    (∀ e, fetch_online_config env.remoteDoc = .error e →
      (runBranch 0 program env).oracleUsed = true ∧
      (runBranch 0 program env).resolvedConfig = some (mock_llm_decision program)) := by
  rcases hfc : fetch_online_config env.remoteDoc with e | m
  · obtain ⟨hfa, hou, hrc⟩ :=
      runBranch_resolve_ok _ _ _ _ _ _ (resolveConfig_fetch_err _ _ _ h hfc)
    refine ⟨hfa, ?_, ?_⟩
    · intro m' hm'
      simp at hm'
    · intro e' _
      exact ⟨hou, hrc⟩
  · rcases hget : mapGet m 65 with _ | c
    · obtain ⟨hfa, hou, hrc⟩ :=
        runBranch_resolve_ok _ _ _ _ _ _ (resolveConfig_fetch_miss _ _ _ h hfc hget)
      refine ⟨hfa, ?_, ?_⟩
      · intro m' hm'
        injection hm' with hmm
        subst hmm
        refine ⟨fun c' hc' => ?_, fun _ => ⟨hou, hrc⟩⟩
        rw [hget] at hc'
        simp at hc'
      · intro e' he'
        simp at he'
    · obtain ⟨hfa, hou, hrc⟩ :=
        runBranch_resolve_ok _ _ _ _ _ _ (resolveConfig_fetch_hit _ _ _ _ h hfc hget)
      refine ⟨hfa, ?_, ?_⟩
      · intro m' hm'
        injection hm' with hmm
        subst hmm
        refine ⟨fun c' hc' => ?_, fun hnone => ?_⟩
        · rw [hget] at hc'
          injection hc' with hcc
          subst hcc
          exact ⟨hou, hrc⟩
        · rw [hget] at hnone
          simp at hnone
      · intro e' he'
        simp at he'

theorem digitChar_spec (d : Nat) (h : d < 10) :
    (digitChar d).isDigit = true ∧ (digitChar d).toNat = 48 + d := by
  interval_cases d <;> exact ⟨by decide, by decide⟩

theorem isDigit_excl (c : Char) (h : c.isDigit = true) :
    ¬(c = '+') ∧ ¬(c = '-') ∧ ¬(c = ';') := by
  refine ⟨?_, ?_, ?_⟩ <;> rintro rfl <;> exact absurd h (by decide)

theorem all_digits_no_semi (ds : List Char) (h : ds.all Char.isDigit = true) :
    ';' ∉ ds := by
  intro hmem
  exact absurd (List.all_eq_true.mp h _ hmem) (by decide)

theorem digitsToNat_append (ds : List Char) (c : Char) :
    digitsToNat (ds ++ [c]) = 10 * digitsToNat ds + (c.toNat - 48) := by
  unfold digitsToNat
  rw [List.foldl_append]
  simp only [List.foldl]
  omega

theorem natToDigitsAux_spec (fuel n : Nat) (hfuel : n < fuel) :
    natToDigitsAux fuel n ≠ [] ∧ (natToDigitsAux fuel n).all Char.isDigit = true ∧
    digitsToNat (natToDigitsAux fuel n) = n := by
  induction fuel generalizing n with
  | zero => omega
  | succ f ih =>
    rw [natToDigitsAux]
    by_cases h : n < 10
    · rw [if_pos h]
      obtain ⟨hd, ht⟩ := digitChar_spec n h
      refine ⟨by simp, by simp [hd], ?_⟩
      simp only [digitsToNat, List.foldl]
      omega
    · rw [if_neg h]
      have hdiv : n / 10 < f := by
        have := Nat.div_lt_self (show 0 < n by omega) (show 1 < 10 by omega)
        omega
      obtain ⟨ih1, ih2, ih3⟩ := ih (n / 10) hdiv
      obtain ⟨hd, ht⟩ := digitChar_spec (n % 10) (Nat.mod_lt n (by omega))
      refine ⟨by simp, ?_, ?_⟩
      · rw [List.all_append, ih2]
        simp [hd]
      · rw [digitsToNat_append, ih3, ht]
        omega

theorem natToDigits_spec (n : Nat) :
    natToDigits n ≠ [] ∧ (natToDigits n).all Char.isDigit = true ∧
    digitsToNat (natToDigits n) = n :=
  natToDigitsAux_spec (n + 1) n (Nat.lt_succ_self n)

theorem renderInt_no_semi (i : Int) : ';' ∉ renderInt i := by
  obtain ⟨-, hall, -⟩ := natToDigits_spec i.natAbs
  unfold renderInt
  by_cases hneg : i < 0
  · rw [if_pos hneg]
    intro hmem
    rcases List.mem_cons.mp hmem with h | h
    · exact absurd h (by decide)
    · exact all_digits_no_semi _ hall h
  · rw [if_neg hneg]
    exact all_digits_no_semi _ hall

theorem parseDigitsInt_eval (lo hi s : Int) (ds : List Char) (hne : ds ≠ [])
    (hall : ds.all Char.isDigit = true)
    (hb : lo ≤ s * (digitsToNat ds : Int) ∧ s * (digitsToNat ds : Int) ≤ hi) :
    parseDigitsInt lo hi s ds = some (s * (digitsToNat ds : Int)) := by
  rcases ds with _ | ⟨c, cs⟩
  · exact absurd rfl hne
  · unfold parseDigitsInt
    rw [if_neg (by simp), if_pos hall, if_pos hb]

theorem parseIntRust_cons_digit (lo hi : Int) (c : Char) (rest : List Char)
    (h : c.isDigit = true) :
    parseIntRust lo hi (c :: rest) = parseDigitsInt lo hi 1 (c :: rest) := by
  obtain ⟨h1, h2, -⟩ := isDigit_excl c h
  simp only [parseIntRust]
  rw [if_neg h1, if_neg h2]

theorem parseIntRust_neg_sign (lo hi : Int) (rest : List Char) :
    parseIntRust lo hi ('-' :: rest) = parseDigitsInt lo hi (-1) rest := by
  simp only [parseIntRust]
  simp

/-- Rendering an integer in range and parsing it back yields the integer. -/
theorem parseIntRust_renderInt (lo hi i : Int) (hlo : lo ≤ i) (hhi : i ≤ hi) :
    parseIntRust lo hi (renderInt i) = some i := by
  obtain ⟨hne, hall, hval⟩ := natToDigits_spec i.natAbs
  by_cases hneg : i < 0
  · rw [renderInt, if_pos hneg, parseIntRust_neg_sign,
      parseDigitsInt_eval lo hi (-1) _ hne hall (by rw [hval]; constructor <;> omega)]
    rw [hval]
    congr 1
    omega
  · rw [renderInt, if_neg hneg]
    rcases hd : natToDigits i.natAbs with _ | ⟨c, cs⟩
    · exact absurd hd hne
    · have hcdig : c.isDigit = true := by
        have hall2 := hall
        rw [hd, List.all_cons, Bool.and_eq_true] at hall2
        exact hall2.1
      rw [parseIntRust_cons_digit _ _ _ _ hcdig, ← hd,
        parseDigitsInt_eval lo hi 1 _ hne hall (by rw [hval]; constructor <;> omega)]
      rw [hval]
      congr 1
      omega

theorem parseDigitsInt_all (lo hi s v : Int) (ds : List Char)
    (h : parseDigitsInt lo hi s ds = some v) : ds.all Char.isDigit = true := by
  unfold parseDigitsInt at h
  by_cases h1 : ds.isEmpty
  · rw [if_pos h1] at h
    cases h
  · rw [if_neg h1] at h
    by_cases h2 : ds.all Char.isDigit = true
    · exact h2
    · rw [if_neg h2] at h
      cases h

/-- A string accepted by Rust integer parsing contains no `;`. -/
theorem parseIntRust_no_semi (lo hi v : Int) (cs : List Char)
    (h : parseIntRust lo hi cs = some v) : ';' ∉ cs := by
  rcases cs with _ | ⟨c, rest⟩
  · simp
  · simp only [parseIntRust] at h
    by_cases h1 : c = '+'
    · rw [if_pos h1] at h
      intro hmem
      rcases List.mem_cons.mp hmem with hc | hc
      · rw [h1] at hc
        exact absurd hc (by decide)
      · exact all_digits_no_semi _ (parseDigitsInt_all _ _ _ _ _ h) hc
    · rw [if_neg h1] at h
      by_cases h2 : c = '-'
      · rw [if_pos h2] at h
        intro hmem
        rcases List.mem_cons.mp hmem with hc | hc
        · rw [h2] at hc
          exact absurd hc (by decide)
        · exact all_digits_no_semi _ (parseDigitsInt_all _ _ _ _ _ h) hc
      · rw [if_neg h2] at h
        exact all_digits_no_semi _ (parseDigitsInt_all _ _ _ _ _ h)

theorem splitSemi_cons (c : Char) (cs : List Char) :
    splitSemi (c :: cs) =
      if c = ';' then [] :: splitSemi cs
      else
        match splitSemi cs with
        | f :: rest => (c :: f) :: rest
        | [] => [[c]] := rfl

theorem splitSemi_ne_nil (l : List Char) : splitSemi l ≠ [] := by
  cases l with
  | nil => simp [splitSemi]
  | cons c cs =>
    rw [splitSemi_cons]
    by_cases h : c = ';'
    · rw [if_pos h]
      simp
    · rw [if_neg h]
      rcases h' : splitSemi cs with _ | ⟨f, rest⟩ <;> simp

theorem splitSemi_no_semi (xs : List Char) (h : ';' ∉ xs) : splitSemi xs = [xs] := by
  induction xs with
  | nil => rfl
  | cons c cs ih =>
    have hc : ¬(c = ';') := fun hc => h (hc ▸ List.mem_cons_self c cs)
    rw [splitSemi_cons, if_neg hc, ih (fun hm => h (List.mem_cons_of_mem c hm))]

theorem splitSemi_append (xs ys : List Char) (h : ';' ∉ xs) :
    splitSemi (xs ++ ';' :: ys) = xs :: splitSemi ys := by
  induction xs with
  | nil =>
    show splitSemi (';' :: ys) = [] :: splitSemi ys
    rw [splitSemi_cons, if_pos rfl]
  | cons c cs ih =>
    have hc : ¬(c = ';') := fun hc => h (hc ▸ List.mem_cons_self c cs)
    show splitSemi (c :: (cs ++ ';' :: ys)) = (c :: cs) :: splitSemi ys
    rw [splitSemi_cons, if_neg hc, ih (fun hm => h (List.mem_cons_of_mem c hm))]

theorem splitSemi_append_length (xs ys : List Char) :
    2 ≤ (splitSemi (xs ++ ';' :: ys)).length := by
  induction xs with
  | nil =>
    show 2 ≤ (splitSemi (';' :: ys)).length
    rw [splitSemi_cons, if_pos rfl]
    have := splitSemi_ne_nil ys
    rcases h : splitSemi ys with _ | ⟨f, rest⟩
    · exact absurd h this
    · simp
  | cons c cs ih =>
    show 2 ≤ (splitSemi (c :: (cs ++ ';' :: ys))).length
    rw [splitSemi_cons]
    by_cases hc : c = ';'
    · rw [if_pos hc]
      have := splitSemi_ne_nil (cs ++ ';' :: ys)
      rcases h : splitSemi (cs ++ ';' :: ys) with _ | ⟨f, rest⟩
      · exact absurd h this
      · simp
    · rw [if_neg hc]
      rcases h : splitSemi (cs ++ ';' :: ys) with _ | ⟨f, rest⟩
      · exact absurd h (splitSemi_ne_nil _)
      · rw [h] at ih
        simpa using ih

/-- Witness for C2 at alias 2 against a file holding only alias 1: no fetch,
no oracle, "Alias 2 not found", exit 1, no child. -/
theorem c2_witness :
    (runBranch 2 "./prog".data envChild3).fetchAttempted = false ∧
    (runBranch 2 "./prog".data envChild3).oracleUsed = false ∧
    (runBranch 2 "./prog".data envChild3).err =
      some ("Alias " ++ toString (2 : Int) ++ " not found") ∧
    (runBranch 2 "./prog".data envChild3).exitCode = 1 ∧
    (runBranch 2 "./prog".data envChild3).childSpawned = false :=
  have h := c2_nonzero_alias_local_only 2 "./prog".data envChild3 (by decide)
  have h2 := (h.2.2 [(1, ⟨5, 100⟩)] (by decide)).2 (by decide)
  ⟨h.1, h.2.1, h2.1, h2.2.1, h2.2.2⟩

/-- Witness for C3 at the concrete environment (clock at 4000 s, remote
transport failing): the fetch is attempted and the oracle supplies the
config. -/
theorem c3_witness :
    (runBranch 0 "./prog".data envChild3).fetchAttempted = true ∧
    (runBranch 0 "./prog".data envChild3).oracleUsed = true ∧
    (runBranch 0 "./prog".data envChild3).resolvedConfig =
      some (mock_llm_decision "./prog".data) :=
  have h := c3_alias_zero_fetch_then_oracle "./prog".data envChild3 (by decide)
  have h2 := h.2.2 "Fetch error: offline" (by decide)
  ⟨h.1, h2.1, h2.2⟩

/-- C9, counterexample: invoking the program with the unknown command
`frobnicate` does not print the usage message and exits with code 0, not 1 —
`main` only prints `Unknown command: ...` and then returns `Ok(())`. -/
theorem c9_counterexample :
    (polite_main ["polite".data, "frobnicate".data] envChild3 (.ok [])).unknownCmdMsg
      = true ∧
    (polite_main ["polite".data, "frobnicate".data] envChild3 (.ok [])).usagePrinted
      = false ∧
    (polite_main ["polite".data, "frobnicate".data] envChild3 (.ok [])).exitCode = 0 := by
  decide

/-- C9, amended: with no command (fewer than two argv entries) the program
prints the usage message and exits 1; with an unknown command it prints the
`Unknown command` message to stderr and exits 0 (usage is not printed). -/
theorem c9_usage_and_unknown (args : List (List Char)) (env : RunEnv)
    (st : Except String (List Char)) :
    (args.length < 2 →
      (polite_main args env st).usagePrinted = true ∧
      (polite_main args env st).exitCode = 1) ∧
    (∀ p cmd rest, args = p :: cmd :: rest →
      cmd ≠ "run".data → cmd ≠ "status".data → cmd ≠ "list".data →
      (polite_main args env st).unknownCmdMsg = true ∧
      (polite_main args env st).usagePrinted = false ∧
      (polite_main args env st).exitCode = 0) := by
  constructor
  · intro hlen
    unfold polite_main
    rw [if_pos hlen]
    exact ⟨rfl, rfl⟩
  · intro p cmd rest hargs h1 h2 h3
    subst hargs
    unfold polite_main
    rw [if_neg (by simp)]
    simp only [if_neg h1, if_neg h2, if_neg h3]
    exact ⟨trivial, rfl, trivial⟩

/-- Witness for C9's amended theorem: a no-argument call prints usage and
exits 1; an unknown-command call prints the unknown-command message and
exits 0. -/
theorem c9_witness :
    ((polite_main [["p".data.head!]] envChild3 (.ok [])).usagePrinted = true ∧
     (polite_main [["p".data.head!]] envChild3 (.ok [])).exitCode = 1) ∧
    ((polite_main ["polite".data, "frobnicate".data] envChild3 (.ok [])).unknownCmdMsg
        = true ∧
     (polite_main ["polite".data, "frobnicate".data] envChild3 (.ok [])).usagePrinted
        = false ∧
     (polite_main ["polite".data, "frobnicate".data] envChild3 (.ok [])).exitCode = 0) :=
  ⟨(c9_usage_and_unknown [["p".data.head!]] envChild3 (.ok [])).1 (by decide),
   (c9_usage_and_unknown ["polite".data, "frobnicate".data] envChild3 (.ok [])).2
     "polite".data "frobnicate".data [] rfl (by decide) (by decide) (by decide)⟩

/-- Witness for C1's amended theorem at the concrete scenario environment. -/
theorem c1_witness :
    (runBranch 1 "./prog".data envChild3).err = none ∧
    ((runBranch 1 "./prog".data envChild3).waitedForChild = true ∧
     (runBranch 1 "./prog".data envChild3).exitCode = 0) :=
  ⟨by decide, c1_run_waits_then_exits_zero 1 "./prog".data envChild3 (by decide)⟩

/-- C4: every line `a;n;o` — the decimal renderings of integers a, n, o
joined by `;` — with alias a nonzero and within the i8 range, niceness n in
[-20, 19] and OOM priority o in [-1000, 1000], parses successfully to
exactly the pair (a, {n, o}). -/
theorem c4_valid_line_parses (a n o : Int)
    (ha1 : -128 ≤ a) (ha2 : a ≤ 127) (ha0 : a ≠ 0)
    (hn1 : -20 ≤ n) (hn2 : n ≤ 19) (ho1 : -1000 ≤ o) (ho2 : o ≤ 1000) :
    parse_config_line (renderInt a ++ ';' :: (renderInt n ++ ';' :: renderInt o)) =
      .ok (a, ⟨n, o⟩) := by
  have hsplit : splitSemi (renderInt a ++ ';' :: (renderInt n ++ ';' :: renderInt o)) =
      [renderInt a, renderInt n, renderInt o] := by
    rw [splitSemi_append _ _ (renderInt_no_semi a),
      splitSemi_append _ _ (renderInt_no_semi n),
      splitSemi_no_semi _ (renderInt_no_semi o)]
  have h1 := parseIntRust_renderInt (-128) 127 a ha1 ha2
  have h2 := parseIntRust_renderInt (-2147483648) 2147483647 n (by omega) (by omega)
  have h3 := parseIntRust_renderInt (-2147483648) 2147483647 o (by omega) (by omega)
  unfold parse_config_line
  rw [hsplit]
  simp only [h1, h2, h3]
  rw [if_neg ha0, if_neg (by omega : ¬(n < -20 ∨ n > 19 ∨ o < -1000 ∨ o > 1000))]

/-- Witness for C4 at the line `1;5;100`. -/
theorem c4_witness :
    ((-128 : Int) ≤ 1 ∧ (1 : Int) ≤ 127 ∧ (1 : Int) ≠ 0 ∧ (-20 : Int) ≤ 5 ∧
      (5 : Int) ≤ 19 ∧ (-1000 : Int) ≤ 100 ∧ (100 : Int) ≤ 1000) ∧
    parse_config_line (renderInt 1 ++ ';' :: (renderInt 5 ++ ';' :: renderInt 100)) =
      .ok (1, ⟨5, 100⟩) :=
  ⟨by decide, c4_valid_line_parses 1 5 100 (by decide) (by decide) (by decide)
    (by decide) (by decide) (by decide) (by decide)⟩

/-- C8: every line whose alias field (the text before the first `;`) parses
as 0 fails with the reserved-alias error, regardless of the content of the
remaining fields. -/
theorem c8_alias_zero_reserved (f0 f1 f2 : List Char)
    (h : parseIntRust (-128) 127 f0 = some 0) :
    parse_config_line (f0 ++ ';' :: (f1 ++ ';' :: f2)) = .error "Alias 0 reserved" := by
  have hno : ';' ∉ f0 := parseIntRust_no_semi _ _ _ _ h
  have hsplit : splitSemi (f0 ++ ';' :: (f1 ++ ';' :: f2)) =
      f0 :: splitSemi (f1 ++ ';' :: f2) := splitSemi_append _ _ hno
  have hlen := splitSemi_append_length f1 f2
  rcases hsp : splitSemi (f1 ++ ';' :: f2) with _ | ⟨q1, qs⟩
  · rw [hsp] at hlen
    simp at hlen
  · rcases qs with _ | ⟨q2, qs'⟩
    · rw [hsp] at hlen
      simp at hlen
    · unfold parse_config_line
      rw [hsplit, hsp]
      simp only [h]
      rw [if_pos trivial]

/-- Witness for C8 at the line `0;x;` (alias field 0, junk elsewhere). -/
theorem c8_witness :
    parseIntRust (-128) 127 "0".data = some 0 ∧
    parse_config_line ("0".data ++ ';' :: ("x".data ++ ';' :: [])) =
      .error "Alias 0 reserved" :=
  ⟨by decide, c8_alias_zero_reserved "0".data "x".data [] (by decide)⟩

theorem loadLines_cons (s : Bool) (acc : ConfigMap) (l : List Char)
    (ls : List (List Char)) :
    loadLines s acc (l :: ls) =
      if trimChars l = startMarker then loadLines true acc ls
      else if trimChars l = endMarker then .ok acc
      else if s && !(trimChars l).isEmpty && !startsWithHash (trimChars l) then
        match parse_config_line (trimChars l) with
        | .ok (a, c) => loadLines s (mapInsert acc a c) ls
        | .error e => .error e
      else loadLines s acc ls := rfl

theorem loadLines_stop_at_end (s : Bool) (acc : ConfigMap) (pre : List (List Char))
    (e : List Char) (post : List (List Char))
    (hpre : ∀ l ∈ pre, trimChars l ≠ endMarker) (he : trimChars e = endMarker) :
    loadLines s acc (pre ++ e :: post) = loadLines s acc pre := by
  induction pre generalizing s acc with
  | nil =>
    show loadLines s acc (e :: post) = loadLines s acc []
    rw [loadLines_cons, if_neg (by rw [he]; decide), if_pos he]
    rfl
  | cons l ls ih =>
    have hl : trimChars l ≠ endMarker := hpre l (List.mem_cons_self l ls)
    have hpre2 : ∀ x ∈ ls, trimChars x ≠ endMarker :=
      fun x hx => hpre x (List.mem_cons_of_mem l hx)
    show loadLines s acc (l :: (ls ++ e :: post)) = loadLines s acc (l :: ls)
    rw [loadLines_cons, loadLines_cons]
    by_cases h1 : trimChars l = startMarker
    · rw [if_pos h1, if_pos h1]
      exact ih true acc hpre2
    · rw [if_neg h1, if_neg h1, if_neg hl, if_neg hl]
      by_cases h2 : (s && !(trimChars l).isEmpty && !startsWithHash (trimChars l)) = true
      · rw [if_pos h2, if_pos h2]
        rcases hp : parse_config_line (trimChars l) with pe | ⟨a, c⟩
        · rfl
        · exact ih s (mapInsert acc a c) hpre2
      · rw [if_neg h2, if_neg h2]
        exact ih s acc hpre2

theorem loadLines_skip_before_start (acc : ConfigMap) (junk rest : List (List Char))
    (hj : ∀ l ∈ junk, trimChars l ≠ startMarker ∧ trimChars l ≠ endMarker) :
    loadLines false acc (junk ++ rest) = loadLines false acc rest := by
  induction junk with
  | nil => rfl
  | cons l ls ih =>
    obtain ⟨h1, h2⟩ := hj l (List.mem_cons_self l ls)
    show loadLines false acc (l :: (ls ++ rest)) = loadLines false acc rest
    rw [loadLines_cons, if_neg h1, if_neg h2, if_neg (by simp)]
    exact ih (fun x hx => hj x (List.mem_cons_of_mem l hx))

/-- C6: only lines between the start marker and the first end marker are
considered. First conjunct: the first line trimming to `-END-` stops the
scan, so everything after it — whatever it is — leaves the result exactly as
if the file had ended there. Second conjunct: while the start marker has not
been seen, every non-marker line is ignored, whatever its content. -/
theorem c6_markers_delimit_section :
    (∀ pre e post, (∀ l ∈ pre, trimChars l ≠ endMarker) → trimChars e = endMarker →
      load_local_config (.ok (pre ++ e :: post)) = load_local_config (.ok pre)) ∧
    (∀ junk rest, (∀ l ∈ junk, trimChars l ≠ startMarker ∧ trimChars l ≠ endMarker) →
      load_local_config (.ok (junk ++ rest)) = load_local_config (.ok rest)) := by
  constructor
  · intro pre e post hpre he
    show loadLines false [] (pre ++ e :: post) = loadLines false [] pre
    exact loadLines_stop_at_end false [] pre e post hpre he
  · intro junk rest hj
    show loadLines false [] (junk ++ rest) = loadLines false [] rest
    exact loadLines_skip_before_start [] junk rest hj

/-- Witness for C6: a valid record after `-END-` is not loaded, and garbage
before `-START-` is ignored. -/
theorem c6_witness :
    (load_local_config (.ok ([" garbage".data, "-START-".data, "1;5;100".data] ++
         "-END-".data :: ["2;6;200".data])) =
       load_local_config (.ok [" garbage".data, "-START-".data, "1;5;100".data])) ∧
    (load_local_config (.ok ([" garbage".data] ++ ["-START-".data, "1;5;100".data])) =
       load_local_config (.ok ["-START-".data, "1;5;100".data])) :=
  ⟨c6_markers_delimit_section.1 [" garbage".data, "-START-".data, "1;5;100".data]
      "-END-".data ["2;6;200".data] (by decide) (by decide),
   c6_markers_delimit_section.2 [" garbage".data] ["-START-".data, "1;5;100".data]
      (by decide)⟩

theorem loadLines_fails_in_section (acc : ConfigMap) (mid : List (List Char))
    (bad : List Char) (post : List (List Char))
    (hmid : ∀ l ∈ mid, trimChars l ≠ endMarker)
    (hbs : trimChars bad ≠ startMarker) (hbe : trimChars bad ≠ endMarker)
    (hbne : (trimChars bad).isEmpty = false)
    (hbh : startsWithHash (trimChars bad) = false)
    (hbp : ∃ pe, parse_config_line (trimChars bad) = .error pe) :
    ∃ err, loadLines true acc (mid ++ bad :: post) = .error err := by
  induction mid generalizing acc with
  | nil =>
    obtain ⟨pe, hpe⟩ := hbp
    show ∃ err, loadLines true acc (bad :: post) = .error err
    rw [loadLines_cons, if_neg hbs, if_neg hbe, if_pos (by simp [hbne, hbh]), hpe]
    exact ⟨pe, rfl⟩
  | cons l ls ih =>
    have hl : trimChars l ≠ endMarker := hmid l (List.mem_cons_self l ls)
    have hmid2 : ∀ x ∈ ls, trimChars x ≠ endMarker :=
      fun x hx => hmid x (List.mem_cons_of_mem l hx)
    show ∃ err, loadLines true acc (l :: (ls ++ bad :: post)) = .error err
    rw [loadLines_cons]
    by_cases h1 : trimChars l = startMarker
    · rw [if_pos h1]
      exact ih acc hmid2
    · rw [if_neg h1, if_neg hl]
      by_cases h2 : (true && !(trimChars l).isEmpty && !startsWithHash (trimChars l)) = true
      · rw [if_pos h2]
        rcases hp : parse_config_line (trimChars l) with pe | ⟨a, c⟩
        · exact ⟨pe, rfl⟩
        · exact ih (mapInsert acc a c) hmid2
      · rw [if_neg h2]
        exact ih acc hmid2

theorem loadLines_section_progress (acc : ConfigMap) (pre rest : List (List Char))
    (hpre : ∀ l ∈ pre, trimChars l ≠ endMarker) :
    (∃ err, loadLines true acc (pre ++ rest) = .error err) ∨
    (∃ acc2, loadLines true acc (pre ++ rest) = loadLines true acc2 rest) := by
  induction pre generalizing acc with
  | nil => exact Or.inr ⟨acc, rfl⟩
  | cons l ls ih =>
    have hl : trimChars l ≠ endMarker := hpre l (List.mem_cons_self l ls)
    have hpre2 : ∀ x ∈ ls, trimChars x ≠ endMarker :=
      fun x hx => hpre x (List.mem_cons_of_mem l hx)
    rw [List.cons_append, loadLines_cons]
    by_cases h1 : trimChars l = startMarker
    · rw [if_pos h1]
      exact ih acc hpre2
    · rw [if_neg h1, if_neg hl]
      by_cases h2 : (true && !(trimChars l).isEmpty && !startsWithHash (trimChars l)) = true
      · rw [if_pos h2]
        rcases hp : parse_config_line (trimChars l) with pe | ⟨a, c⟩
        · exact Or.inl ⟨pe, rfl⟩
        · exact ih (mapInsert acc a c) hpre2
      · rw [if_neg h2]
        exact ih acc hpre2

theorem loadLines_enters_section (acc : ConfigMap) (pre rest : List (List Char))
    (hstart : ∃ sline ∈ pre, trimChars sline = startMarker)
    (hpre : ∀ l ∈ pre, trimChars l ≠ endMarker) :
    (∃ err, loadLines false acc (pre ++ rest) = .error err) ∨
    (∃ acc2, loadLines false acc (pre ++ rest) = loadLines true acc2 rest) := by
  induction pre generalizing acc with
  | nil =>
    obtain ⟨sline, hs, -⟩ := hstart
    cases hs
  | cons l ls ih =>
    have hl : trimChars l ≠ endMarker := hpre l (List.mem_cons_self l ls)
    have hpre2 : ∀ x ∈ ls, trimChars x ≠ endMarker :=
      fun x hx => hpre x (List.mem_cons_of_mem l hx)
    rw [List.cons_append, loadLines_cons]
    by_cases h1 : trimChars l = startMarker
    · rw [if_pos h1]
      exact loadLines_section_progress acc ls rest hpre2
    · rw [if_neg h1, if_neg hl, if_neg (by simp)]
      refine ih acc ?_ hpre2
      obtain ⟨sline, hs, htrim⟩ := hstart
      rcases List.mem_cons.mp hs with rfl | hmem
      · exact absurd htrim h1
      · exact ⟨sline, hmem, htrim⟩

/-- C5: a file whose active section (opened by a `-START-` line, with no
`-END-` seen yet) reaches a line that is neither blank, comment nor marker
and fails to parse, fails to load entirely — no mapping, partial or
otherwise, is returned. -/
theorem c5_malformed_line_fails_load (pre : List (List Char)) (bad : List Char)
    (post : List (List Char))
    (hstart : ∃ sline ∈ pre, trimChars sline = startMarker)
    (hnoend : ∀ l ∈ pre, trimChars l ≠ endMarker)
    (hbs : trimChars bad ≠ startMarker) (hbe : trimChars bad ≠ endMarker)
    (hbne : (trimChars bad).isEmpty = false)
    (hbh : startsWithHash (trimChars bad) = false)
    (hbp : ∃ pe, parse_config_line (trimChars bad) = .error pe) :
    ∃ err, load_local_config (.ok (pre ++ bad :: post)) = .error err := by
  show ∃ err, loadLines false [] (pre ++ bad :: post) = .error err
  rcases loadLines_enters_section [] pre (bad :: post) hstart hnoend with
    ⟨err, herr⟩ | ⟨acc2, hacc⟩
  · exact ⟨err, herr⟩
  · rw [hacc]
    exact loadLines_fails_in_section acc2 [] bad post (by simp) hbs hbe hbne hbh hbp

/-- Witness for C5: the file `-START-` / `not-a-config` / `1;5;100` / `-END-`
fails to load entirely, with no partial mapping for the parseable line. -/
theorem c5_witness :
    ∃ err, load_local_config (.ok (["-START-".data] ++
      "not-a-config".data :: ["1;5;100".data, "-END-".data])) = .error err :=
  c5_malformed_line_fails_load ["-START-".data] "not-a-config".data
    ["1;5;100".data, "-END-".data] ⟨"-START-".data, by decide, by decide⟩
    (by decide) (by decide) (by decide) (by decide) (by decide)
    ⟨"Invalid config", by decide⟩

theorem toOption_ok_of_some (x : Except String (Int × PoliteConfig))
    (p : Int × PoliteConfig) (h : x.toOption = some p) : x = .ok p := by
  cases x with
  | ok q => simpa [Except.toOption] using h
  | error e => simp [Except.toOption] at h

theorem goodLine_parts (l : List Char) (h : goodLine l = true) :
    trimChars l ≠ startMarker ∧ trimChars l ≠ endMarker ∧
    ((trimChars l).isEmpty = true ∨ startsWithHash (trimChars l) = true ∨
      ∃ p, parse_config_line (trimChars l) = .ok p) := by
  unfold goodLine at h
  simp only [Bool.and_eq_true, decide_eq_true_eq] at h
  obtain ⟨⟨h1, h2⟩, h3⟩ := h
  refine ⟨h1, h2, ?_⟩
  simp only [Bool.or_eq_true] at h3
  rcases h3 with (h3 | h3) | h3
  · exact Or.inl h3
  · exact Or.inr (Or.inl h3)
  · refine Or.inr (Or.inr ?_)
    rcases hp : parse_config_line (trimChars l) with pe | p
    · rw [hp] at h3
      simp [Except.toOption] at h3
    · exact ⟨p, rfl⟩

theorem loadLines_good_section (acc : ConfigMap) (sec : List (List Char))
    (e : List Char) (rest : List (List Char))
    (hsec : ∀ l ∈ sec, goodLine l = true) (he : trimChars e = endMarker) :
    loadLines true acc (sec ++ e :: rest) = .ok (sec.foldl stepLine acc) := by
  induction sec generalizing acc with
  | nil =>
    show loadLines true acc (e :: rest) = .ok acc
    rw [loadLines_cons, if_neg (by rw [he]; decide), if_pos he]
  | cons l ls ih =>
    obtain ⟨h1, h2, h3⟩ := goodLine_parts l (hsec l (List.mem_cons_self l ls))
    have hsec2 : ∀ x ∈ ls, goodLine x = true :=
      fun x hx => hsec x (List.mem_cons_of_mem l hx)
    rw [List.cons_append, loadLines_cons, if_neg h1, if_neg h2, List.foldl_cons]
    by_cases hsk : ((trimChars l).isEmpty || startsWithHash (trimChars l)) = true
    · have hcond : (true && !(trimChars l).isEmpty && !startsWithHash (trimChars l))
          = false := by
        cases h4 : (trimChars l).isEmpty with
        | true => simp [h4]
        | false =>
          rw [h4] at hsk
          simp only [Bool.false_or] at hsk
          simp [hsk]
      rw [if_neg (by simp only [hcond]; simp)]
      have hstep : stepLine acc l = acc := by
        unfold stepLine entryOfLocal
        rw [if_pos hsk]
      rw [hstep]
      exact ih acc hsec2
    · simp only [Bool.or_eq_true, not_or, Bool.not_eq_true] at hsk
      obtain ⟨hEmp, hHash⟩ := hsk
      rcases h3 with h3 | h3 | ⟨p, hp⟩
      · rw [h3] at hEmp
        cases hEmp
      · rw [h3] at hHash
        cases hHash
      · obtain ⟨a, c⟩ := p
        rw [if_pos (by simp [hEmp, hHash]), hp]
        have hstep : stepLine acc l = mapInsert acc a c := by
          unfold stepLine entryOfLocal
          rw [if_neg (by simp [hEmp, hHash]), hp]
          rfl
        rw [hstep]
        exact ih (mapInsert acc a c) hsec2

theorem mapGet_insert (m : ConfigMap) (k k2 : Int) (v : PoliteConfig) :
    mapGet (mapInsert m k v) k2 = if k = k2 then some v else mapGet m k2 := by
  by_cases h : k = k2
  · rw [if_pos h]
    unfold mapGet mapInsert
    rw [List.find?_cons_of_pos _ (by simp [h])]
    rfl
  · rw [if_neg h]
    unfold mapGet mapInsert
    rw [List.find?_cons_of_neg _ (by simp [h])]

theorem lookupLastLine_cons (l : List Char) (ls : List (List Char)) (a : Int) :
    lookupLastLine (l :: ls) a =
      match lookupLastLine ls a with
      | some c => some c
      | none =>
        match entryOfLocal l with
        | some (a2, c) => if a2 = a then some c else none
        | none => none := rfl

theorem mapGet_foldl_step (sec : List (List Char)) (acc : ConfigMap) (a : Int) :
    mapGet (sec.foldl stepLine acc) a =
      match lookupLastLine sec a with
      | some c => some c
      | none => mapGet acc a := by
  induction sec generalizing acc with
  | nil => rfl
  | cons l ls ih =>
    rw [List.foldl_cons, ih, lookupLastLine_cons]
    rcases hll : lookupLastLine ls a with _ | c
    · rcases he : entryOfLocal l with _ | ⟨a2, c2⟩
      · have hstep : stepLine acc l = acc := by
          unfold stepLine
          rw [he]
        rw [hstep]
      · have hstep : stepLine acc l = mapInsert acc a2 c2 := by
          unfold stepLine
          rw [he]
        rw [hstep, mapGet_insert]
        by_cases ha : a2 = a <;> simp [ha]
    · rfl

theorem lookupLastLine_append (xs ys : List (List Char)) (a : Int) :
    lookupLastLine (xs ++ ys) a =
      match lookupLastLine ys a with
      | some c => some c
      | none => lookupLastLine xs a := by
  induction xs with
  | nil =>
    rcases h : lookupLastLine ys a with _ | c <;> simp [lookupLastLine, h]
  | cons l ls ih =>
    show lookupLastLine (l :: (ls ++ ys)) a = _
    rw [lookupLastLine_cons, ih, lookupLastLine_cons]
    rcases h : lookupLastLine ys a with _ | c
    · rfl
    · rfl

theorem lookupLastLine_no_alias (xs : List (List Char)) (a : Int)
    (h : ∀ l ∈ xs, ∀ c, entryOfLocal l ≠ some (a, c)) :
    lookupLastLine xs a = none := by
  induction xs with
  | nil => rfl
  | cons l ls ih =>
    rw [lookupLastLine_cons, ih (fun x hx => h x (List.mem_cons_of_mem l hx))]
    show (match entryOfLocal l with
      | some (a2, c) => if a2 = a then some c else none
      | none => none) = none
    rcases he : entryOfLocal l with _ | ⟨a2, c2⟩
    · rfl
    · show (if a2 = a then some c2 else none) = none
      by_cases ha : a2 = a
      · subst ha
        exact absurd he (h l (List.mem_cons_self l ls) c2)
      · rw [if_neg ha]

/-- C10: when the active section holds two well-formed lines with the same
alias (and no later line rebinds that alias), loading succeeds — duplicates
are not an error — and the returned mapping binds the alias to the settings
of the later line in file order. -/
theorem c10_duplicate_alias_last_wins
    (s : List Char) (sec1 sec2 sec3 : List (List Char)) (l1 l2 : List Char)
    (e : List Char) (post : List (List Char)) (a : Int) (c1 c2 : PoliteConfig)
    (hs : trimChars s = startMarker) (he : trimChars e = endMarker)
    (hgood : ∀ l ∈ sec1 ++ (l1 :: (sec2 ++ (l2 :: sec3))), goodLine l = true)
    (_hdup : entryOfLocal l1 = some (a, c1)) (h2 : entryOfLocal l2 = some (a, c2))
    (h3 : ∀ l ∈ sec3, ∀ c, entryOfLocal l ≠ some (a, c)) :
    ∃ m, load_local_config
        (.ok (s :: ((sec1 ++ (l1 :: (sec2 ++ (l2 :: sec3)))) ++ e :: post)))
        = .ok m ∧ mapGet m a = some c2 := by
  show ∃ m, loadLines false []
      (s :: ((sec1 ++ (l1 :: (sec2 ++ (l2 :: sec3)))) ++ e :: post)) = .ok m ∧ _
  rw [loadLines_cons, if_pos hs, loadLines_good_section [] _ e post hgood he]
  refine ⟨_, rfl, ?_⟩
  have hl2 : lookupLastLine (l2 :: sec3) a = some c2 := by
    rw [lookupLastLine_cons, lookupLastLine_no_alias sec3 a h3, h2]
    show (if a = a then some c2 else none) = some c2
    rw [if_pos rfl]
  have hmid : lookupLastLine (l1 :: (sec2 ++ l2 :: sec3)) a = some c2 := by
    rw [lookupLastLine_cons, lookupLastLine_append sec2 (l2 :: sec3) a, hl2]
  have hsec : lookupLastLine (sec1 ++ (l1 :: (sec2 ++ (l2 :: sec3)))) a = some c2 := by
    rw [lookupLastLine_append sec1 (l1 :: (sec2 ++ (l2 :: sec3))) a, hmid]
  rw [mapGet_foldl_step, hsec]

/-- Witness for C10: the section holds `1;5;100` then `1;7;200`; the load
succeeds and alias 1 maps to the later settings (7, 200). -/
theorem c10_witness :
    (entryOfLocal "1;5;100".data = some (1, ⟨5, 100⟩) ∧
     entryOfLocal "1;7;200".data = some (1, ⟨7, 200⟩)) ∧
    (∃ m, load_local_config (.ok ("-START-".data ::
        (([] ++ "1;5;100".data :: [] ++ "1;7;200".data :: []) ++
          "-END-".data :: []))) = .ok m ∧ mapGet m 1 = some ⟨7, 200⟩) :=
  ⟨⟨by decide, by decide⟩,
   c10_duplicate_alias_last_wins "-START-".data [] [] [] "1;5;100".data
     "1;7;200".data "-END-".data [] 1 ⟨5, 100⟩ ⟨7, 200⟩ (by decide) (by decide)
     (by decide) (by decide) (by decide)
     (fun l hl => absurd hl (List.not_mem_nil l))⟩

theorem dropWhile_suffix_decomp {α : Type} (p : α → Bool) (l : List α) :
    ∃ s, s ++ l.dropWhile p = l := by
  induction l with
  | nil => exact ⟨[], rfl⟩
  | cons a l ih =>
    rw [List.dropWhile_cons]
    by_cases h : p a = true
    · rw [if_pos h]
      obtain ⟨s, hs⟩ := ih
      exact ⟨a :: s, by rw [List.cons_append, hs]⟩
    · rw [if_neg h]
      exact ⟨[], rfl⟩

theorem trimChars_head (c : Char) (rest : List Char) (hws : c.isWhitespace = false)
    (hne : trimChars (c :: rest) ≠ []) : ∃ t, trimChars (c :: rest) = c :: t := by
  have hdrop : (c :: rest).dropWhile Char.isWhitespace = c :: rest := by
    rw [List.dropWhile_cons, if_neg (by simp [hws])]
  unfold trimChars at hne ⊢
  rw [hdrop] at hne ⊢
  obtain ⟨s, hs⟩ := dropWhile_suffix_decomp Char.isWhitespace (c :: rest).reverse
  set d := (c :: rest).reverse.dropWhile Char.isWhitespace with hd
  rcases hrev : d.reverse with _ | ⟨x, xs⟩
  · exact absurd hrev hne
  · have : c :: rest = d.reverse ++ s.reverse := by
      have := congrArg List.reverse hs
      rw [List.reverse_append, List.reverse_reverse] at this
      exact this.symm
    rw [hrev, List.cons_append] at this
    injection this with hx htail
    subst hx
    exact ⟨xs, rfl⟩

theorem ws_char_facts (c : Char) (h : c.isWhitespace = true) :
    c ≠ ';' ∧ c ≠ '+' ∧ c ≠ '-' ∧ c.isDigit = false := by
  simp only [Char.isWhitespace, Bool.or_eq_true, decide_eq_true_eq] at h
  rcases h with (((rfl | rfl) | rfl) | rfl) <;>
    exact ⟨by decide, by decide, by decide, by decide⟩

theorem hash_after_trim_parse_err (l : List Char)
    (hraw : startsWithHash l = false) (htrim : startsWithHash (trimChars l) = true) :
    ∃ pe, parse_config_line l = .error pe := by
  rcases l with _ | ⟨c, rest⟩
  · exact absurd htrim (by decide)
  · by_cases hws : c.isWhitespace = true
    · obtain ⟨hsemi, hplus, hminus, hdig⟩ := ws_char_facts c hws
      obtain ⟨f, r, hsp⟩ : ∃ f r, splitSemi rest = f :: r := by
        rcases h2 : splitSemi rest with _ | ⟨f, r⟩
        · exact absurd h2 (splitSemi_ne_nil rest)
        · exact ⟨f, r, rfl⟩
      have hsplit : splitSemi (c :: rest) = (c :: f) :: r := by
        rw [splitSemi_cons, if_neg hsemi, hsp]
      have hparse0 : parseIntRust (-128) 127 (c :: f) = none := by
        simp only [parseIntRust]
        rw [if_neg hplus, if_neg hminus]
        unfold parseDigitsInt
        rw [if_neg (by simp), if_neg (by simp [hdig])]
      unfold parse_config_line
      rw [hsplit]
      rcases r with _ | ⟨q1, r2⟩
      · exact ⟨"Invalid config", rfl⟩
      · rcases r2 with _ | ⟨q2, r3⟩
        · exact ⟨"Invalid config", rfl⟩
        · simp only [hparse0]
          exact ⟨"invalid alias integer", rfl⟩
    · have hne : trimChars (c :: rest) ≠ [] := by
        intro h0
        rw [h0] at htrim
        exact absurd htrim (by decide)
      obtain ⟨t, ht⟩ := trimChars_head c rest (by simpa using hws) hne
      rw [ht] at htrim
      simp only [startsWithHash, decide_eq_true_eq] at htrim
      subst htrim
      simp [startsWithHash] at hraw

theorem dropWhile_snoc_ne_nil (p : Char → Bool) (c : Char) (hc : p c = false) :
    ∀ xs : List Char, (xs ++ [c]).dropWhile p ≠ []
  | [] => by simp [List.dropWhile_cons, hc]
  | x :: xs => by
    rw [List.cons_append, List.dropWhile_cons]
    by_cases h : p x = true
    · rw [if_pos h]
      exact dropWhile_snoc_ne_nil p c hc xs
    · rw [if_neg h]
      simp

theorem hash_raw_hash_trim (l : List Char) (h : startsWithHash l = true) :
    startsWithHash (trimChars l) = true := by
  rcases l with _ | ⟨c, rest⟩
  · exact absurd h (by decide)
  · simp only [startsWithHash, decide_eq_true_eq] at h
    subst h
    have hne : trimChars ('#' :: rest) ≠ [] := by
      unfold trimChars
      rw [List.dropWhile_cons, if_neg (by decide), List.reverse_cons]
      intro h0
      have h1 := congrArg List.reverse h0
      rw [List.reverse_reverse, List.reverse_nil] at h1
      exact dropWhile_snoc_ne_nil Char.isWhitespace '#' (by decide) rest.reverse h1
    obtain ⟨t, ht⟩ := trimChars_head '#' rest (by decide) hne
    rw [ht]
    simp [startsWithHash]

theorem lookupLast_cons (p : Int × PoliteConfig) (rest : List (Int × PoliteConfig))
    (a : Int) :
    lookupLast (p :: rest) a =
      match lookupLast rest a with
      | some c => some c
      | none => if p.1 = a then some p.2 else none := rfl

theorem remoteFold_empty_iff (L : List (List Char)) (acc : ConfigMap) :
    L.foldl remoteStep acc = [] ↔
      (acc = [] ∧ L.filterMap (fun l => (parse_config_line l).toOption) = []) := by
  induction L generalizing acc with
  | nil => simp
  | cons l ls ih =>
    rw [List.foldl_cons, List.filterMap_cons]
    rcases hp : parse_config_line l with pe | ⟨a, c⟩
    · have hstep : remoteStep acc l = acc := by
        unfold remoteStep
        rw [hp]
      rw [hstep, ih]
      simp [Except.toOption]
    · have hstep : remoteStep acc l = mapInsert acc a c := by
        unfold remoteStep
        rw [hp]
      rw [hstep, ih]
      simp [Except.toOption, mapInsert]

theorem mapGet_remoteFold (L : List (List Char)) (acc : ConfigMap) (a : Int) :
    mapGet (L.foldl remoteStep acc) a =
      match lookupLast (L.filterMap (fun l => (parse_config_line l).toOption)) a with
      | some c => some c
      | none => mapGet acc a := by
  induction L generalizing acc with
  | nil => rfl
  | cons l ls ih =>
    rw [List.foldl_cons, ih, List.filterMap_cons]
    rcases hp : parse_config_line l with pe | ⟨a2, c2⟩
    · have hstep : remoteStep acc l = acc := by
        unfold remoteStep
        rw [hp]
      rw [hstep]
      rfl
    · have hstep : remoteStep acc l = mapInsert acc a2 c2 := by
        unfold remoteStep
        rw [hp]
      rw [hstep]
      show _ = (match lookupLast ((a2, c2) ::
        ls.filterMap (fun l => (parse_config_line l).toOption)) a with
        | some c => some c
        | none => mapGet acc a)
      rw [lookupLast_cons]
      rcases hll : lookupLast (ls.filterMap (fun l => (parse_config_line l).toOption)) a
        with _ | c
      · rw [mapGet_insert]
        by_cases ha : a2 = a <;> simp [ha]
      · rfl

theorem fetch_doc_eq (docLines : List (List Char)) :
    fetch_doc docLines =
      if ((docLines.filter fetchCandidate).foldl remoteStep []).isEmpty then
        .error "No valid online configs"
      else .ok ((docLines.filter fetchCandidate).foldl remoteStep []) := rfl

theorem remoteFold_filter_equiv (doc : List (List Char)) (acc : ConfigMap) :
    (doc.filter fetchCandidate).foldl remoteStep acc =
      (doc.filter (fun l => !(trimChars l).isEmpty &&
        !startsWithHash (trimChars l))).foldl remoteStep acc := by
  induction doc generalizing acc with
  | nil => rfl
  | cons l ls ih =>
    rw [List.filter_cons, List.filter_cons]
    by_cases hE : (trimChars l).isEmpty = true
    · rw [if_neg (by simp [fetchCandidate, hE]), if_neg (by simp [hE])]
      exact ih acc
    · by_cases hH : startsWithHash (trimChars l) = true
      · by_cases hR : startsWithHash l = true
        · rw [if_neg (by simp [fetchCandidate, hR]), if_neg (by simp [hH])]
          exact ih acc
        · rw [if_pos (by simp [fetchCandidate, hE, hR]), if_neg (by simp [hH]),
            List.foldl_cons]
          obtain ⟨pe, hpe⟩ := hash_after_trim_parse_err l
            (by simpa using hR) hH
          have hstep : remoteStep acc l = acc := by
            unfold remoteStep
            rw [hpe]
          rw [hstep]
          exact ih acc
      · have hR : startsWithHash l = false := by
          rcases h2 : startsWithHash l with _ | _
          · rfl
          · exact absurd (hash_raw_hash_trim l h2) hH
        rw [if_pos (by simp [fetchCandidate, hE, hR]), if_pos (by simp [hE, hH]),
          List.foldl_cons, List.foldl_cons]
        exact ih (remoteStep acc l)

theorem fetch_err_ne (e : String) :
    "Fetch error: " ++ e ≠ "No valid online configs" := by
  obtain ⟨d⟩ := e
  intro h
  have h2 := congrArg String.data h
  have h3 : (("Fetch error: " : String) ++ String.mk d).data =
      'F' :: ("etch error: ".data ++ d) := rfl
  have h4 : ("No valid online configs" : String).data =
      'N' :: "o valid online configs".data := rfl
  rw [h3, h4] at h2
  injection h2 with hc _
  exact absurd hc (by decide)

/-- C7: remote fetching is best-effort. (1) a transport failure surfaces as
`Fetch error: ...`; (2) that message is never the empty-document error, so
the two failure kinds are distinguishable; (3) the document-level fetch
fails with `No valid online configs` exactly when no line parses; (4) on
success the mapping contains exactly the well-formed entries (per alias, the
last such line wins), malformed lines being skipped rather than fatal; (5)
filtering blank/comment lines on the raw line (as the source does) gives the
same result as filtering on the trimmed line exactly as local loading
filters. -/
theorem c7_remote_best_effort :
    (∀ e, fetch_online_config (.error e) = .error ("Fetch error: " ++ e)) ∧
    (∀ e, "Fetch error: " ++ e ≠ "No valid online configs") ∧
    (∀ doc, fetch_doc doc = .error "No valid online configs" ↔ parsedEntries doc = []) ∧
    (∀ doc m, fetch_doc doc = .ok m → ∀ a, mapGet m a = lookupLast (parsedEntries doc) a) ∧
    (∀ doc, fetch_doc doc = fetch_doc_specFilter doc) := by
  refine ⟨fun e => rfl, fetch_err_ne, ?_, ?_, ?_⟩
  · intro doc
    rw [fetch_doc_eq]
    by_cases hE : ((doc.filter fetchCandidate).foldl remoteStep []).isEmpty = true
    · rw [if_pos hE]
      simp only [true_iff]
      have h0 := (remoteFold_empty_iff (doc.filter fetchCandidate) []).mp
        (List.isEmpty_iff.mp hE)
      exact h0.2
    · rw [if_neg hE]
      constructor
      · intro h0
        cases h0
      · intro h0
        exfalso
        apply hE
        rw [List.isEmpty_iff]
        exact (remoteFold_empty_iff (doc.filter fetchCandidate) []).mpr ⟨rfl, h0⟩
  · intro doc m hm a
    rw [fetch_doc_eq] at hm
    by_cases hE : ((doc.filter fetchCandidate).foldl remoteStep []).isEmpty = true
    · rw [if_pos hE] at hm
      cases hm
    · rw [if_neg hE] at hm
      injection hm with hm2
      subst hm2
      rw [mapGet_remoteFold]
      have hfold : List.filterMap (fun l => (parse_config_line l).toOption)
          (List.filter fetchCandidate doc) = parsedEntries doc := rfl
      rw [hfold]
      rcases hll : lookupLast (parsedEntries doc) a with _ | c
      · rfl
      · rfl
  · intro doc
    unfold fetch_doc fetch_doc_specFilter
    rw [remoteFold_filter_equiv doc []]

/-- Witness for C7's conjunct with a hypothesis: on the concrete document
`["# note", "junk", "1;5;100"]` the fetch succeeds and the mapping holds
exactly the one well-formed entry. -/
theorem c7_witness :
    fetch_doc ["# note".data, "junk".data, "1;5;100".data] = .ok [(1, ⟨5, 100⟩)] ∧
    mapGet [(1, (⟨5, 100⟩ : PoliteConfig))] 1 =
      lookupLast (parsedEntries ["# note".data, "junk".data, "1;5;100".data]) 1 :=
  ⟨by decide,
   c7_remote_best_effort.2.2.2.1 ["# note".data, "junk".data, "1;5;100".data]
     [(1, ⟨5, 100⟩)] (by decide) 1⟩

end Polite
